import Mathlib

/-!
# Verification of the "Lente de Custos" report engine (src/src/App.tsx)

Shallow embedding of the core logic of `App.tsx`:
text normalizer (`limparTexto`), record ingestion (`handleFileUpload` row
mapping, `handleAdd`), aggregation (`totalInicial`, `totalFinal`,
`economia`, `contaMaisUsada`, `contaTop`, `valorContaTop`), spreadsheet
serialization (`exportToExcel` row mapping) and the paginated PDF layout
(`exportToPDF`).

JavaScript numbers are modelled by `JSNum`: either `NaN`, a signed
infinity, or a finite value represented by a rational.  The operations
the program performs on numbers (`+`, `-`, `*`, `/`, `>`, truthiness,
`x || 0`) are modelled with IEEE special-value semantics on this type.
-/

/-- A JavaScript number: `NaN`, `±Infinity`, or a finite value
(idealized as a rational; the program only adds, subtracts, multiplies
and divides user-supplied values). -/
inductive JSNum where
  | nan : JSNum
  | inf (pos : Bool) : JSNum
  | fin (q : ℚ) : JSNum
deriving DecidableEq

namespace JSNum

/-- JavaScript truthiness of a number: `NaN` and `0` are falsy. -/
def truthy : JSNum → Bool
  | .nan => false
  | .inf _ => true
  | .fin q => decide (q ≠ 0)

/-- The JS idiom `x || 0` applied to a number `x`. -/
def orZero (v : JSNum) : JSNum := if truthy v then v else .fin 0

/-- JS `+` on numbers. -/
def add : JSNum → JSNum → JSNum
  | .nan, _ => .nan
  | _, .nan => .nan
  | .inf s, .inf t => if s = t then .inf s else .nan
  | .inf s, .fin _ => .inf s
  | .fin _, .inf t => .inf t
  | .fin a, .fin b => .fin (a + b)

/-- JS unary minus on numbers. -/
def neg : JSNum → JSNum
  | .nan => .nan
  | .inf s => .inf (!s)
  | .fin q => .fin (-q)

/-- JS `-` on numbers. -/
def sub (a b : JSNum) : JSNum := add a (neg b)

/-- JS `*` on numbers. -/
def mul : JSNum → JSNum → JSNum
  | .nan, _ => .nan
  | _, .nan => .nan
  | .inf s, .inf t => .inf (s == t)
  | .inf s, .fin q => if q = 0 then .nan else .inf (s == decide (0 < q))
  | .fin q, .inf s => if q = 0 then .nan else .inf (s == decide (0 < q))
  | .fin a, .fin b => .fin (a * b)

/-- JS `/` on numbers (zero is treated as `+0`; the program never
produces a `-0`). -/
def div : JSNum → JSNum → JSNum
  | .nan, _ => .nan
  | _, .nan => .nan
  | .inf _, .inf _ => .nan
  | .inf s, .fin q => if q = 0 then .inf s else .inf (s == decide (0 < q))
  | .fin _, .inf _ => .fin 0
  | .fin a, .fin b =>
    if b = 0 then (if a = 0 then .nan else .inf (decide (0 < a))) else .fin (a / b)

/-- JS `<` on numbers: any comparison with `NaN` is false. -/
def lt : JSNum → JSNum → Bool
  | .nan, _ => false
  | _, .nan => false
  | .fin a, .fin b => decide (a < b)
  | .inf true, _ => false
  | .inf false, .inf s => s
  | .inf false, .fin _ => true
  | .fin _, .inf s => s

/-- JS `>` on numbers. -/
def gt (a b : JSNum) : Bool := lt b a

end JSNum

/-- The JS idiom `s || d` on strings: the empty string is falsy. -/
def strOr (s d : String) : String := if s = "" then d else s

/-- The canonical record (`type Entry` in App.tsx).  The optional string
fields are modelled as `String` with `""` standing for an
absent/undefined field — exactly the defaulting the program itself
applies on every construction site. -/
structure Entry where
  fornecedor : String
  valorInicial : JSNum
  valorFinal : JSNum
  contaRazao : String
  area : String
  mesAno : String
  periodo : String
deriving DecidableEq

/-- One spreadsheet row as seen by `handleFileUpload` after
`sheet_to_json`.  A text cell is modelled by the string it contains
(`""` for an absent cell — `row[col] || ""` then yields `""` either
way); a numeric cell is modelled by the `JSNum` that `Number(cell)`
evaluates to (`NaN` for an absent or unparsable cell). -/
structure Row where
  fornecedor : String
  valorCotado : JSNum
  valorFinalCell : JSNum
  contaRazao : String
  area : String
  mesAno : String
  periodo : String
deriving DecidableEq

/-- The row mapping of `handleFileUpload` (App.tsx lines 90–98):
`Number(row[col]) || 0` for the two numeric columns, `row[col] || ""`
for the text columns. -/
def fromRow (r : Row) : Entry where
  fornecedor := strOr r.fornecedor ""
  valorInicial := JSNum.orZero r.valorCotado
  valorFinal := JSNum.orZero r.valorFinalCell
  contaRazao := strOr r.contaRazao ""
  area := strOr r.area ""
  mesAno := strOr r.mesAno ""
  periodo := strOr r.periodo ""

/-- The whole import: `json.map(row => ({...}))` followed by
`setData(importedData)`. -/
def importEntries (rows : List Row) : List Entry := rows.map fromRow

/-- The row mapping of `exportToExcel` (App.tsx lines 174–189):
each Entry back to the seven named columns, `item.field || ""` on the
optional text fields. -/
def toRow (e : Entry) : Row where
  fornecedor := e.fornecedor
  valorCotado := e.valorInicial
  valorFinalCell := e.valorFinal
  contaRazao := strOr e.contaRazao ""
  area := strOr e.area ""
  mesAno := strOr e.mesAno ""
  periodo := strOr e.periodo ""

/-- The nine form-field states of the manual-entry card.  The two
numeric fields have React state type `number | ""`, modelled as
`Option JSNum` with `none` for `""`. -/
structure Form where
  fornecedorInicial : String
  valorInicial : Option JSNum
  fornecedorFinal : String
  valorFinal : Option JSNum
  contaRazao : String
  area : String
  mes : String
  ano : String
  periodo : String
deriving DecidableEq

/-- The state every form field is reset to after a successful add. -/
def emptyForm : Form :=
  { fornecedorInicial := "", valorInicial := none, fornecedorFinal := "",
    valorFinal := none, contaRazao := "", area := "", mes := "", ano := "",
    periodo := "" }

/-- JS truthiness of a `number | ""` state: `""` is falsy, a number is
truthy unless it is `0` or `NaN`. -/
def truthyOpt : Option JSNum → Bool
  | none => false
  | some v => v.truthy

/-- `Number(x)` applied to a `number | ""` state: `Number("") = 0`, a
number is unchanged. -/
def jsNumber : Option JSNum → JSNum
  | none => .fin 0
  | some v => v

/-- The guard of `handleAdd` (App.tsx line 111):
`fornecedorInicial && valorInicial && fornecedorFinal && valorFinal`. -/
def addCond (f : Form) : Bool :=
  (f.fornecedorInicial != "") && truthyOpt f.valorInicial
    && (f.fornecedorFinal != "") && truthyOpt f.valorFinal

/-- The Entry built by `handleAdd` on success (App.tsx lines 114–122);
`mes && ano ? mes/ano : ""` for the period label. -/
def mkEntry (f : Form) : Entry where
  fornecedor := f.fornecedorInicial ++ " → " ++ f.fornecedorFinal
  valorInicial := jsNumber f.valorInicial
  valorFinal := jsNumber f.valorFinal
  contaRazao := f.contaRazao
  area := f.area
  mesAno := if (f.mes != "") && (f.ano != "") then f.mes ++ "/" ++ f.ano else ""
  periodo := f.periodo

/-- `handleAdd` (App.tsx lines 110–135): when the guard holds, append
one entry and clear all nine fields; otherwise no state changes at
all.  Returns the new record list and the new form state. -/
def handleAdd (f : Form) (data : List Entry) : List Entry × Form :=
  if addCond f then (data ++ [mkEntry f], emptyForm) else (data, f)

/-- `totalInicial` (App.tsx line 147): `data.reduce((acc, c) => acc + c.valorInicial, 0)`. -/
def totalInicial (data : List Entry) : JSNum :=
  data.foldl (fun acc e => JSNum.add acc e.valorInicial) (.fin 0)

/-- `totalFinal` (App.tsx line 148). -/
def totalFinal (data : List Entry) : JSNum :=
  data.foldl (fun acc e => JSNum.add acc e.valorFinal) (.fin 0)

/-- `economia` (App.tsx line 149): `totalInicial - totalFinal`. -/
def economia (data : List Entry) : JSNum :=
  JSNum.sub (totalInicial data) (totalFinal data)

/-- The category key used by the per-category accumulation:
`item.contaRazao || "Não informada"`. -/
def contaKey (e : Entry) : String := strOr e.contaRazao "Não informada"

/-- One step of the `contaMaisUsada` reduce:
`map[k] = (map[k] || 0) + item.valorFinal`.  A JS object with string
keys keeps first-insertion order, modelled by an association list:
an existing key is updated in place, a new key is appended at the end. -/
def bumpConta (m : List (String × JSNum)) (k : String) (v : JSNum) :
    List (String × JSNum) :=
  if m.any (fun p => p.1 = k) then
    m.map (fun p => if p.1 = k then (p.1, JSNum.add (JSNum.orZero p.2) v) else p)
  else
    m ++ [(k, JSNum.add (.fin 0) v)]

/-- `contaMaisUsada` (App.tsx lines 155–159): per-category sums of
`valorFinal`, keyed by `contaRazao || "Não informada"`, in first-seen
order. -/
def contaMaisUsada (data : List Entry) : List (String × JSNum) :=
  data.foldl (fun m e => bumpConta m (contaKey e) e.valorFinal) []

/-- `map[k]` on the modelled object: `none` for an absent key
(JS `undefined`). -/
def lookupConta (m : List (String × JSNum)) (k : String) : Option JSNum :=
  (m.find? (fun p => p.1 = k)).map (fun p => p.2)

/-- JS `>` where either operand may be `undefined`: any comparison
involving `undefined` is false. -/
def gtU : Option JSNum → Option JSNum → Bool
  | some a, some b => JSNum.gt a b
  | _, _ => false

/-- `contaTop` (App.tsx lines 162–165):
`Object.keys(m).reduce((a, b) => m[a] > m[b] ? a : b, "Nenhuma")`. -/
def contaTop (data : List Entry) : String :=
  ((contaMaisUsada data).map Prod.fst).foldl
    (fun a b =>
      if gtU (lookupConta (contaMaisUsada data) a)
             (lookupConta (contaMaisUsada data) b) then a else b)
    "Nenhuma"

/-- The JS idiom `x || 0` where `x` may be `undefined`. -/
def orZeroU : Option JSNum → JSNum
  | none => .fin 0
  | some v => v.orZero

/-- `valorContaTop` (App.tsx line 168): `contaMaisUsada[contaTop] || 0`. -/
def valorContaTop (data : List Entry) : JSNum :=
  orZeroU (lookupConta (contaMaisUsada data) (contaTop data))

/-- `economiaGeralPerc` (App.tsx line 272):
`totalInicial > 0 ? (economiaGeral / totalInicial) * 100 : 0`. -/
def economiaGeralPerc (data : List Entry) : JSNum :=
  if JSNum.gt (totalInicial data) (.fin 0) then
    JSNum.mul (JSNum.div (economia data) (totalInicial data)) (.fin 100)
  else .fin 0

/-!
## Text Normalizer (`limparTexto`, App.tsx lines 62–69)

Strings are processed as lists of Unicode scalar values.  The call
`texto.normalize("NFD")` performs Unicode canonical decomposition; its
character table is external to the program, so the pipeline is
parameterized by the decomposition `nfd : Char → List Char`.  The three
regex replacements and the trim are modelled directly.
-/

/-- JS regex `\s` (also the set removed by `String.trim`): the
whitespace code points. -/
def isJsWs (c : Char) : Bool :=
  let n := c.toNat
  n == 0x20 || n == 0x9 || n == 0xA || n == 0xB || n == 0xC || n == 0xD
    || n == 0xA0 || n == 0x1680 || (0x2000 ≤ n && n ≤ 0x200A)
    || n == 0x2028 || n == 0x2029 || n == 0x202F || n == 0x205F
    || n == 0x3000 || n == 0xFEFF

/-- The combining-mark range `[̀-ͯ]` removed by the first
replacement. -/
def isMark (c : Char) : Bool :=
  0x300 ≤ c.toNat && c.toNat ≤ 0x36F

/-- The character class kept by the second replacement,
`[a-zA-Z0-9À-ÿ,.!?()\-\s]`: ASCII letters (0x61–0x7A, 0x41–0x5A),
digits (0x30–0x39), the range `À-ÿ` (0xC0–0xFF), the punctuation
`, . ! ? ( ) -` (0x2C 0x2E 0x21 0x3F 0x28 0x29 0x2D), and `\s`. -/
def allowedChar (c : Char) : Bool :=
  let n := c.toNat
  (0x61 ≤ n && n ≤ 0x7A) || (0x41 ≤ n && n ≤ 0x5A) || (0x30 ≤ n && n ≤ 0x39)
    || (0xC0 ≤ n && n ≤ 0xFF)
    || n == 0x2C || n == 0x2E || n == 0x21 || n == 0x3F || n == 0x28
    || n == 0x29 || n == 0x2D
    || isJsWs c

/-- Whitespace normalization: a whitespace character becomes a plain
space, anything else is unchanged. -/
def normWs (c : Char) : Char := if isJsWs c then ' ' else c

/-- The replacement `.replace(/\s+/g, " ")`: each maximal run of
whitespace becomes a single space.  Every whitespace character that is
followed by another whitespace character is dropped, and the final
character of a run becomes `' '`. -/
def collapseWs : List Char → List Char
  | [] => []
  | [c] => [normWs c]
  | c :: d :: cs =>
    if isJsWs c && isJsWs d then collapseWs (d :: cs)
    else normWs c :: collapseWs (d :: cs)

/-- `.trim()`: drop whitespace from both ends. -/
def trimWs (l : List Char) : List Char :=
  ((l.dropWhile (fun c => isJsWs c)).reverse.dropWhile (fun c => isJsWs c)).reverse

/-- `limparTexto` (App.tsx lines 62–69), parameterized by the Unicode
canonical decomposition `nfd` applied by `.normalize("NFD")`:
decompose, strip `[̀-ͯ]`, delete characters outside the
allow-list, collapse whitespace runs, trim. -/
def limparTexto (nfd : Char → List Char) (texto : String) : String :=
  let decomposed := texto.toList.flatMap nfd
  let noMarks := decomposed.filter (fun c => !isMark c)
  let allowed := noMarks.filter allowedChar
  (trimWs (collapseWs allowed)).asString

/-!
## Document Composer (`exportToPDF`, App.tsx lines 195–300)

The layout state tracks the current page, the vertical cursor `y`, and
the placed primitives: text lines as `(page, y)` pairs and images as
`(page, y, width, height)` tuples.  The externally supplied behaviours
(`normalize("NFD")`, `pdf.splitTextToSize(·, 180)`,
`toLocaleString` currency formatting, `toFixed(2)`) are parameters.
-/

/-- Transient layout state of one `exportToPDF` call. -/
structure PdfState where
  page : ℕ
  y : ℚ
  texts : List (ℕ × ℚ)
  images : List (ℕ × ℚ × ℚ × ℚ)
deriving DecidableEq

/-- Placing one wrapped line (App.tsx lines 257–264): if `y > 280`,
`addPage()` and `y = 20` first; then `pdf.text(l, 15, y)` and
`y += lineHeight` with `lineHeight = 7`.  The line content does not
affect the cursor. -/
def placeLine (st : PdfState) (_line : String) : PdfState :=
  let st1 := if st.y > 280 then { st with page := st.page + 1, y := 20 } else st
  { st1 with texts := st1.texts ++ [(st1.page, st1.y)], y := st1.y + 7 }

/-- Placing a list of wrapped lines in order. -/
def placeLines (st : PdfState) (ls : List String) : PdfState :=
  ls.foldl placeLine st

/-- An already-rasterized chart image: intrinsic width and height. -/
structure Img where
  width : ℚ
  height : ℚ
deriving DecidableEq

/-- `addImage` (App.tsx lines 209–221): skipped entirely when the ref
is empty (`if (ref.current)`); otherwise scale to width 180, height
from the aspect ratio, place at the cursor, advance `y` by the placed
height plus 10.  There is no overflow check for images. -/
def addImage (st : PdfState) (img : Option Img) : PdfState :=
  match img with
  | none => st
  | some im =>
    let pdfWidth : ℚ := 180
    let pdfHeight : ℚ := im.height * pdfWidth / im.width
    { st with images := st.images ++ [(st.page, st.y, pdfWidth, pdfHeight)],
              y := st.y + pdfHeight + 10 }

/-- External collaborators of the export: the Unicode decomposition,
`pdf.splitTextToSize(·, 180)`, and the locale currency/percent
formatters. -/
structure Collab where
  nfd : Char → List Char
  split : String → List String
  fmtBRL : JSNum → String
  fixed2 : JSNum → String

/-- The per-entry narrative fragments (App.tsx lines 238–253). -/
def entryTexto (ext : Collab) (item : Entry) : List String :=
  let economiaAbs := JSNum.sub item.valorInicial item.valorFinal
  let economiaPerc :=
    if JSNum.gt item.valorInicial (.fin 0) then
      JSNum.mul (JSNum.div economiaAbs item.valorInicial) (.fin 100)
    else .fin 0
  [ "Analisou-se a negociação referente a "
      ++ limparTexto ext.nfd item.fornecedor ++ ".",
    "Na área " ++ limparTexto ext.nfd (strOr item.area "não informada")
      ++ ", vinculada à conta "
      ++ limparTexto ext.nfd (strOr item.contaRazao "não informada") ++ ",",
    "em " ++ strOr item.mesAno "período não informado" ++ ".",
    "O valor inicialmente cotado foi de " ++ ext.fmtBRL item.valorInicial
      ++ ", enquanto o valor final ficou em " ++ ext.fmtBRL item.valorFinal
      ++ ", gerando uma economia de " ++ ext.fmtBRL economiaAbs
      ++ " (" ++ ext.fixed2 economiaPerc ++ "%)." ]

/-- The consolidated fragments (App.tsx lines 274–283). -/
def consolidadoTexto (ext : Collab) (data : List Entry) : List String :=
  [ "No consolidado geral, o valor total cotado foi de "
      ++ ext.fmtBRL (totalInicial data)
      ++ ", enquanto o valor final negociado foi de "
      ++ ext.fmtBRL (totalFinal data) ++ ".",
    "Esse resultado representou uma economia absoluta de "
      ++ ext.fmtBRL (economia data) ++ ", equivalente a "
      ++ ext.fixed2 (economiaGeralPerc data) ++ "%. A conta mais utilizada foi "
      ++ contaTop data ++ "." ]

/-- A sequence of fragments (`texto.forEach` / `consolidado.forEach`):
each fragment is wrapped by `pdf.splitTextToSize(·, 180)` and its lines
placed in order. -/
def placeParagraph (ext : Collab) (st : PdfState) (linhas : List String) :
    PdfState :=
  linhas.foldl (fun st linha => placeLines st (ext.split linha)) st

/-- The narrative loop (App.tsx lines 238–268): each entry's fragments
followed by a 5-unit gap. -/
def narrativeFold (ext : Collab) (data : List Entry) (st : PdfState) :
    PdfState :=
  data.foldl (fun st item =>
    let st2 := placeParagraph ext st (entryTexto ext item)
    { st2 with y := st2.y + 5 }) st

/-- The cover phase of the export (App.tsx lines 196–226): title placed
at `y = 10` on page 1, `y += 10`, then the three chart images, each
possibly missing. -/
def afterCharts (pie bar conta : Option Img) : PdfState :=
  let st0 : PdfState := { page := 1, y := 10, texts := [(1, 10)], images := [] }
  let st1 : PdfState := { st0 with y := st0.y + 10 }
  addImage (addImage (addImage st1 pie) bar) conta

/-- The text phase of the export (App.tsx lines 236–296), starting from
the state after the narrative heading: the per-entry narrative with a
5-unit gap after each entry, a 5-unit gap, then the consolidated
text. -/
def textPhase (ext : Collab) (data : List Entry) (st4 : PdfState) : PdfState :=
  let st5 := narrativeFold ext data st4
  let st6 : PdfState := { st5 with y := st5.y + 5 }
  placeParagraph ext st6 (consolidadoTexto ext data)

/-- The whole export (App.tsx lines 195–300): the cover phase, a forced
page break with `y = 20`, the narrative heading (placed at `y = 20`,
then `y += 10`), then the text phase. -/
def exportToPDF (ext : Collab) (pie bar conta : Option Img)
    (data : List Entry) : PdfState :=
  let st2 := afterCharts pie bar conta
  let st3 : PdfState := { st2 with page := st2.page + 1, y := 20 }
  let st4 : PdfState := { st3 with texts := st3.texts ++ [(st3.page, st3.y)],
                                   y := st3.y + 10 }
  textPhase ext data st4

/-!
## Record-set transitions (App.tsx lines 100, 112, 312–313)

Every `setData` call site of the program, as a step relation on the
record list.
-/

/-- The four `setData` sites: `setData([])` ("Limpar tudo"),
`setData(prev.slice(0, -1))` ("Limpar último"), the guarded append of
`handleAdd`, and `setData(importedData)` in `handleFileUpload`. -/
inductive AppStep : List Entry → List Entry → Prop where
  | clearAll (d : List Entry) : AppStep d []
  | clearLast (d : List Entry) : AppStep d d.dropLast
  | addOne (f : Form) (d : List Entry) (h : addCond f = true) :
      AppStep d (d ++ [mkEntry f])
  | importFile (d : List Entry) (rows : List Row) :
      AppStep d (importEntries rows)

/-!
## Spec-side definition for the allow-list comparison (claim C7)

The spec describes the allow-list as "letters including extended Latin,
digits, the punctuation set `, . ! ? ( ) -`, and whitespace".
-/

/-- Modelled from the spec's words, for comparison with `allowedChar`:
a letter (ASCII or Latin-1 Supplement / Latin Extended-A/B, which in
those blocks is every code point except the two operators
`×` 0xD7 and `÷` 0xF7), a digit, one of `, . ! ? ( ) -`, or
whitespace. -/
def specAllowedChar (c : Char) : Bool :=
  let n := c.toNat
  (0x61 ≤ n && n ≤ 0x7A) || (0x41 ≤ n && n ≤ 0x5A) || (0x30 ≤ n && n ≤ 0x39)
    || (0xC0 ≤ n && n ≤ 0x24F && !(n == 0xD7) && !(n == 0xF7))
    || n == 0x2C || n == 0x2E || n == 0x21 || n == 0x3F || n == 0x28
    || n == 0x29 || n == 0x2D
    || isJsWs c

/-!
## Helper lemmas
-/

theorem strOr_empty_default (s : String) : strOr s "" = s := by
  unfold strOr; split <;> simp_all

theorem JSNum.gt_fin_fin (a b : ℚ) : JSNum.gt (.fin a) (.fin b) = decide (b < a) := rfl

theorem JSNum.orZero_eq_self (v : JSNum) (h : v ≠ .nan) : JSNum.orZero v = v := by
  cases v with
  | nan => exact absurd rfl h
  | inf s => rfl
  | fin q =>
    unfold JSNum.orZero JSNum.truthy
    by_cases hq : q = 0 <;> simp [hq]

theorem JSNum.orZero_ne_nan (v : JSNum) : JSNum.orZero v ≠ .nan := by
  cases v with
  | nan => simp [JSNum.orZero, JSNum.truthy]
  | inf s => simp [JSNum.orZero, JSNum.truthy]
  | fin q =>
    unfold JSNum.orZero JSNum.truthy
    by_cases hq : q = 0 <;> simp [hq]


/-!
## Claim C1 — `topCategory` selection and tie-break
-/

/-- **C1, counterexample.**  Two categories with equal summed final
values (100 each), `"A"` encountered first, `"B"` second: the code's
`contaTop` reduce (`m[a] > m[b] ? a : b`) keeps the current leader only
when its sum is *strictly greater* than the candidate's, so on this
exact tie the result is `"B"`, the *later* category — the claim
predicts the earlier one, `"A"`. -/
theorem contaTop_tie_counterexample :
    contaTop
      [⟨"a", .fin 0, .fin 100, "A", "", "", ""⟩,
       ⟨"b", .fin 0, .fin 100, "B", "", "", ""⟩] = "B" ∧
    lookupConta (contaMaisUsada
      [⟨"a", .fin 0, .fin 100, "A", "", "", ""⟩,
       ⟨"b", .fin 0, .fin 100, "B", "", "", ""⟩]) "A" = some (.fin 100) ∧
    lookupConta (contaMaisUsada
      [⟨"a", .fin 0, .fin 100, "A", "", "", ""⟩,
       ⟨"b", .fin 0, .fin 100, "B", "", "", ""⟩]) "B" = some (.fin 100) ∧
    "B" ≠ "A" := by
  refine ⟨?_, ?_, ?_, by decide⟩
  · simp [contaTop, contaMaisUsada, bumpConta, contaKey, strOr, lookupConta,
      gtU, JSNum.gt, JSNum.lt, JSNum.add, List.find?]
  · simp [contaMaisUsada, bumpConta, contaKey, strOr, lookupConta,
      JSNum.add, List.find?]
  · simp [contaMaisUsada, bumpConta, contaKey, strOr, lookupConta,
      JSNum.add, List.find?]

/-- **C1, amended.**  `topCategory` is chosen by iterating categories in
first-seen (insertion) order, replacing the current leader unless the
leader's summed final value is *strictly greater* than the candidate's;
consequently, whenever two categories have equal summed final values,
the category encountered *later* in iteration order is `topCategory`
(the claim's "earlier wins" is inverted); for the empty entry list,
`topCategory` is the sentinel `"Nenhuma"` and all sums are 0. -/
theorem contaTop_tie_and_empty
    (c1 c2 s1 s2 a1 a2 m1 m2 p1 p2 : String) (q1 q2 : JSNum) (v : ℚ)
    (h1 : c1 ≠ "") (h2 : c2 ≠ "") (h12 : c1 ≠ c2) :
    contaTop [⟨s1, q1, .fin v, c1, a1, m1, p1⟩,
              ⟨s2, q2, .fin v, c2, a2, m2, p2⟩] = c2 ∧
    contaTop [] = "Nenhuma" ∧ valorContaTop [] = .fin 0 ∧
    totalInicial [] = .fin 0 ∧ totalFinal [] = .fin 0 ∧
    economia [] = .fin 0 := by
  refine ⟨?_, rfl, rfl, rfl, rfl,
    by simp [economia, totalInicial, totalFinal, JSNum.sub, JSNum.add, JSNum.neg]⟩
  have hm : contaMaisUsada [⟨s1, q1, .fin v, c1, a1, m1, p1⟩,
      ⟨s2, q2, .fin v, c2, a2, m2, p2⟩] =
      [(c1, .fin (0 + v)), (c2, .fin (0 + v))] := by
    simp only [contaMaisUsada, List.foldl_cons, List.foldl_nil, bumpConta,
      contaKey, strOr]
    rw [if_neg h1, if_neg h2]
    simp [h12, Ne.symm h12, JSNum.add]
  have L1 : lookupConta [(c1, JSNum.fin (0 + v)), (c2, JSNum.fin (0 + v))] c1
      = some (.fin (0 + v)) := by
    simp [lookupConta, List.find?]
  have L2 : lookupConta [(c1, JSNum.fin (0 + v)), (c2, JSNum.fin (0 + v))] c2
      = some (.fin (0 + v)) := by
    simp [lookupConta, List.find?, h12]
  rw [contaTop, hm]
  simp only [List.map_cons, List.map_nil, List.foldl_cons, List.foldl_nil]
  have hstep1 :
      (if gtU (lookupConta [(c1, JSNum.fin (0 + v)), (c2, JSNum.fin (0 + v))] "Nenhuma")
          (lookupConta [(c1, JSNum.fin (0 + v)), (c2, JSNum.fin (0 + v))] c1)
        then "Nenhuma" else c1) = c1 := by
    by_cases hn1 : c1 = "Nenhuma"
    · rw [← hn1, L1]
      simp [gtU, JSNum.gt, JSNum.lt]
    · by_cases hn2 : c2 = "Nenhuma"
      · rw [← hn2, L2, L1]
        simp [gtU, JSNum.gt, JSNum.lt]
      · have hnone : lookupConta [(c1, JSNum.fin (0 + v)), (c2, JSNum.fin (0 + v))]
            "Nenhuma" = none := by
          simp [lookupConta, List.find?, hn1, hn2]
        rw [hnone]
        simp [gtU]
  rw [hstep1, L1, L2]
  simp [gtU, JSNum.gt, JSNum.lt]

/-- Witness for `contaTop_tie_and_empty`: categories `"A"` then `"B"`,
equal final sums of 100. -/
theorem contaTop_tie_and_empty_witness :
    contaTop [⟨"a", .fin 0, .fin 100, "A", "", "", ""⟩,
              ⟨"b", .fin 0, .fin 100, "B", "", "", ""⟩] = "B" ∧
    contaTop [] = "Nenhuma" ∧ valorContaTop [] = .fin 0 ∧
    totalInicial [] = .fin 0 ∧ totalFinal [] = .fin 0 ∧
    economia [] = .fin 0 :=
  contaTop_tie_and_empty "A" "B" "a" "b" "" "" "" "" "" ""
    (.fin 0) (.fin 0) 100 (by decide) (by decide) (by decide)

/-!
## Claim C2 — acceptance condition of the manual-entry ingestor
-/

/-- **C2, counterexample.**  A form state in which all four required
fields are present and the two numeric fields are non-empty (`5` and
`0`), yet `handleAdd` produces no record: the guard tests JS
truthiness, and the number `0` is falsy, so a quoted-or-final value of
`0` is rejected even though it is present.  The claim's "if and only
if" fails in the "if" direction. -/
theorem handleAdd_zero_counterexample :
    (handleAdd ⟨"a", some (.fin 5), "b", some (.fin 0), "", "", "", "", ""⟩ []).1
      = [] ∧
    (some (JSNum.fin 5)).isSome = true ∧ (some (JSNum.fin 0)).isSome = true := by
  refine ⟨?_, rfl, rfl⟩
  norm_num [handleAdd, addCond, truthyOpt, JSNum.truthy]

/-- **C2, amended.**  `handleAdd` appends a new record if and only if
the two supplier fields are non-empty and the two numeric fields hold
*truthy* numbers (present and neither `0` nor `NaN`) — presence alone
is not enough; in particular, when `valorFinal` is missing (`""`), no
record is produced and the record list is unchanged; when a record is
produced, its period label is `mes ++ "/" ++ ano` when both month and
year are non-empty and the empty string otherwise. -/
theorem handleAdd_append_iff (f : Form) (d : List Entry) :
    ((∃ e, (handleAdd f d).1 = d ++ [e]) ↔
      (f.fornecedorInicial ≠ "" ∧ f.fornecedorFinal ≠ "" ∧
       (∃ v, f.valorInicial = some v ∧ v.truthy = true) ∧
       (∃ v, f.valorFinal = some v ∧ v.truthy = true))) ∧
    (f.valorFinal = none → (handleAdd f d).1 = d) ∧
    (f.mes ≠ "" → f.ano ≠ "" → (mkEntry f).mesAno = f.mes ++ "/" ++ f.ano) ∧
    ((f.mes = "" ∨ f.ano = "") → (mkEntry f).mesAno = "") := by
  have hcond : addCond f = true ↔
      (f.fornecedorInicial ≠ "" ∧ f.fornecedorFinal ≠ "" ∧
       (∃ v, f.valorInicial = some v ∧ v.truthy = true) ∧
       (∃ v, f.valorFinal = some v ∧ v.truthy = true)) := by
    unfold addCond truthyOpt
    cases f.valorInicial <;> cases f.valorFinal <;>
      simp [Bool.and_eq_true, bne_iff_ne, and_assoc] <;> tauto
  refine ⟨?_, ?_, ?_, ?_⟩
  · constructor
    · intro ⟨e, he⟩
      by_cases h : addCond f
      · exact hcond.mp h
      · rw [handleAdd, if_neg h] at he
        exact absurd (congrArg List.length he) (by simp)
    · intro hr
      exact ⟨mkEntry f, by rw [handleAdd, if_pos (hcond.mpr hr)]⟩
  · intro hv
    by_cases h : addCond f
    · exfalso
      obtain ⟨v, hv2, _⟩ := (hcond.mp h).2.2.2
      rw [hv] at hv2; exact Option.noConfusion hv2
    · rw [handleAdd, if_neg h]
  · intro hm ha
    simp [mkEntry, hm, ha]
  · intro hma
    rcases hma with hm | hm <;> simp [mkEntry, hm]

/-- Witness for `handleAdd_append_iff`: a complete form with month
`"Maio"` and year `"2025"` gets the period label `"Maio/2025"`. -/
theorem handleAdd_append_iff_witness :
    (mkEntry ⟨"a", some (.fin 5), "b", some (.fin 3), "", "", "Maio", "2025", ""⟩).mesAno
      = "Maio" ++ "/" ++ "2025" :=
  (handleAdd_append_iff
    ⟨"a", some (.fin 5), "b", some (.fin 3), "", "", "Maio", "2025", ""⟩ []).2.2.1
    (by decide) (by decide)

/-!
## Claim C10 — atomicity of the manual addition
-/

/-- **C10, confirmed.**  `handleAdd` is atomic over the whole UI state:
when its acceptance condition fails, the record list and all nine form
fields are unchanged; when it succeeds, exactly one entry is appended
at the end (the existing entries are a preserved left part of the new
list) and all nine form fields are reset to the empty value in the same
step. -/
theorem handleAdd_atomic (f : Form) (d : List Entry) :
    (addCond f = false → handleAdd f d = (d, f)) ∧
    (addCond f = true →
      (handleAdd f d).1.length = d.length + 1 ∧
      (handleAdd f d).1.take d.length = d ∧
      (handleAdd f d).2 = emptyForm) := by
  constructor
  · intro h; simp [handleAdd, h]
  · intro h
    refine ⟨by simp [handleAdd, h], ?_, by simp [handleAdd, h]⟩
    simp [handleAdd, h, List.take_left]

/-- Witness for `handleAdd_atomic`: an empty form is rejected with no
state change, a complete form resets every field. -/
theorem handleAdd_atomic_witness :
    handleAdd ⟨"", none, "", none, "", "", "", "", ""⟩ []
      = ([], ⟨"", none, "", none, "", "", "", "", ""⟩) ∧
    (handleAdd ⟨"a", some (.fin 5), "b", some (.fin 3), "", "", "", "", ""⟩ []).2
      = emptyForm :=
  ⟨(handleAdd_atomic ⟨"", none, "", none, "", "", "", "", ""⟩ []).1 (by decide),
   ((handleAdd_atomic ⟨"a", some (.fin 5), "b", some (.fin 3), "", "", "", "", ""⟩ []).2
     (by norm_num [addCond, truthyOpt, JSNum.truthy]; decide)).2.2⟩

/-!
## Claim C3 — numeric-field invariant of ingested entries
-/

theorem JSNum.truthy_ne_nan (v : JSNum) (h : v.truthy = true) : v ≠ .nan := by
  cases v <;> simp_all [JSNum.truthy]

/-- **C3, counterexample.**  The import coercion is `Number(cell) || 0`,
which only replaces *falsy* results (`NaN`, `0`): a cell whose numeric
value is `-5` yields the negative entry value `-5`, and a cell whose
value is `Infinity` (e.g. the text `"1e999"`) yields an infinite entry
value — the claimed invariant "finite, non-negative-or-zero" fails on
both counts. -/
theorem fromRow_negative_counterexample :
    (fromRow ⟨"F", .fin (-5), .inf true, "", "", "", ""⟩).valorInicial
      = .fin (-5) ∧
    ((-5 : ℚ) < 0) ∧
    (fromRow ⟨"F", .fin (-5), .inf true, "", "", "", ""⟩).valorFinal
      = .inf true := by
  refine ⟨?_, by norm_num, ?_⟩ <;>
    norm_num [fromRow, JSNum.orZero, JSNum.truthy]

/-- **C3, amended.**  Entries produced by import or by a successful
manual addition never hold `NaN` in a numeric field (a `NaN` cell
coerces to `0`), but the fields need not be finite or non-negative:
that is the only part of the claimed invariant the coercion actually
guarantees. -/
theorem entry_numeric_never_nan :
    (∀ r : Row, (fromRow r).valorInicial ≠ .nan ∧ (fromRow r).valorFinal ≠ .nan) ∧
    (∀ r : Row, r.valorCotado = .nan → (fromRow r).valorInicial = .fin 0) ∧
    (∀ r : Row, r.valorFinalCell = .nan → (fromRow r).valorFinal = .fin 0) ∧
    (∀ f : Form, addCond f = true →
      (mkEntry f).valorInicial ≠ .nan ∧ (mkEntry f).valorFinal ≠ .nan) := by
  refine ⟨fun r => ⟨JSNum.orZero_ne_nan _, JSNum.orZero_ne_nan _⟩,
    fun r h => ?_, fun r h => ?_, fun f h => ?_⟩
  · show JSNum.orZero r.valorCotado = .fin 0
    rw [h]; rfl
  · show JSNum.orZero r.valorFinalCell = .fin 0
    rw [h]; rfl
  · unfold addCond at h
    simp only [Bool.and_eq_true] at h
    obtain ⟨⟨⟨-, h1⟩, -⟩, h2⟩ := h
    constructor
    · show jsNumber f.valorInicial ≠ .nan
      cases hv : f.valorInicial with
      | none => simp [jsNumber]
      | some v =>
        rw [hv] at h1
        exact JSNum.truthy_ne_nan v h1
    · show jsNumber f.valorFinal ≠ .nan
      cases hv : f.valorFinal with
      | none => simp [jsNumber]
      | some v =>
        rw [hv] at h2
        exact JSNum.truthy_ne_nan v h2

/-- Witness for `entry_numeric_never_nan`: a `NaN` quoted-value cell
imports as `0`. -/
theorem entry_numeric_never_nan_witness :
    (fromRow ⟨"", .nan, .nan, "", "", "", ""⟩).valorInicial = .fin 0 :=
  entry_numeric_never_nan.2.1 ⟨"", .nan, .nan, "", "", "", ""⟩ rfl

/-!
## Claim C4 — totals, absolute savings and savings percent
-/

/-- **C4, counterexample.**  The savings-percent guard is
`totalInicial > 0`, not `totalInicial != 0`: for the one-entry list
with quoted value `-5 + -5 = -10` the total quoted is `-10 ≠ 0`, the
claim's "otherwise" formula gives `(-15)/(-10)*100 = 150`, but the code
yields `0`. -/
theorem economiaGeralPerc_negative_counterexample :
    totalInicial [⟨"f", .fin (-10), .fin 5, "", "", "", ""⟩] = .fin (-10) ∧
    JSNum.fin (-10) ≠ .fin 0 ∧
    economiaGeralPerc [⟨"f", .fin (-10), .fin 5, "", "", "", ""⟩] = .fin 0 ∧
    JSNum.mul
      (JSNum.div (economia [⟨"f", .fin (-10), .fin 5, "", "", "", ""⟩])
        (totalInicial [⟨"f", .fin (-10), .fin 5, "", "", "", ""⟩]))
      (.fin 100) = .fin 150 := by
  have ht : totalInicial [⟨"f", .fin (-10), .fin 5, "", "", "", ""⟩]
      = .fin (-10) := by
    norm_num [totalInicial, JSNum.add]
  have hf : totalFinal [⟨"f", .fin (-10), .fin 5, "", "", "", ""⟩]
      = .fin 5 := by
    norm_num [totalFinal, JSNum.add]
  have he : economia [⟨"f", .fin (-10), .fin 5, "", "", "", ""⟩]
      = .fin (-15) := by
    rw [economia, ht, hf]; norm_num [JSNum.sub, JSNum.add, JSNum.neg]
  refine ⟨ht, by simp, ?_, ?_⟩
  · rw [economiaGeralPerc, ht]
    norm_num [JSNum.gt, JSNum.lt]
  · rw [he, ht]
    norm_num [JSNum.div, JSNum.mul]

/-- **C4, amended.**  For every entry list, `totalInicial`/`totalFinal`
are the running sums of the quoted/final values, `economia` is exactly
`totalInicial - totalFinal`, and the savings percent is
`economia / totalInicial * 100` when `totalInicial > 0` and `0`
otherwise — in particular it is `0` when `totalInicial = 0`, but also
whenever the total is negative (or `NaN`), not only at zero as the
claim stated. -/
theorem aggregate_identities (data : List Entry) (e : Entry) :
    economia data = JSNum.sub (totalInicial data) (totalFinal data) ∧
    totalInicial ([] : List Entry) = .fin 0 ∧
    totalFinal ([] : List Entry) = .fin 0 ∧
    totalInicial (data ++ [e]) = JSNum.add (totalInicial data) e.valorInicial ∧
    totalFinal (data ++ [e]) = JSNum.add (totalFinal data) e.valorFinal ∧
    (totalInicial data = .fin 0 → economiaGeralPerc data = .fin 0) ∧
    (JSNum.gt (totalInicial data) (.fin 0) = true →
      economiaGeralPerc data
        = JSNum.mul (JSNum.div (economia data) (totalInicial data)) (.fin 100)) ∧
    (JSNum.gt (totalInicial data) (.fin 0) = false →
      economiaGeralPerc data = .fin 0) := by
  refine ⟨rfl, rfl, rfl, ?_, ?_, ?_, ?_, ?_⟩
  · simp [totalInicial, List.foldl_append]
  · simp [totalFinal, List.foldl_append]
  · intro h
    rw [economiaGeralPerc, h]
    norm_num [JSNum.gt, JSNum.lt]
  · intro h
    rw [economiaGeralPerc, if_pos h]
  · intro h
    rw [economiaGeralPerc, if_neg (by simp [h])]

/-- Witness for `aggregate_identities` at the spec's end-to-end
scenario (`1000→800` and `500→500`, totals `1500`/`1300`): the percent
formula branch applies. -/
theorem aggregate_identities_witness :
    economiaGeralPerc
      [⟨"A → B", .fin 1000, .fin 800, "X", "", "", ""⟩,
       ⟨"C → D", .fin 500, .fin 500, "X", "", "", ""⟩]
      = JSNum.mul
          (JSNum.div
            (economia
              [⟨"A → B", .fin 1000, .fin 800, "X", "", "", ""⟩,
               ⟨"C → D", .fin 500, .fin 500, "X", "", "", ""⟩])
            (totalInicial
              [⟨"A → B", .fin 1000, .fin 800, "X", "", "", ""⟩,
               ⟨"C → D", .fin 500, .fin 500, "X", "", "", ""⟩]))
          (.fin 100) :=
  (aggregate_identities
    [⟨"A → B", .fin 1000, .fin 800, "X", "", "", ""⟩,
     ⟨"C → D", .fin 500, .fin 500, "X", "", "", ""⟩]
    ⟨"", .fin 0, .fin 0, "", "", "", ""⟩).2.2.2.2.2.2.1
    (by norm_num [totalInicial, JSNum.add, JSNum.gt, JSNum.lt])

/-!
## Claim C5 — spreadsheet round trip
-/

/-- **C5, confirmed.**  Exporting an entry to its spreadsheet row and
re-importing it reproduces the entry exactly, provided its numeric
fields are not `NaN` (a condition every entry the program constructs
satisfies — the second conjunct shows imported entries never carry
`NaN`).  Text fields survive exactly because the defaulting
`field || ""` is idempotent. -/
theorem export_import_roundtrip (e : Entry)
    (h1 : e.valorInicial ≠ .nan) (h2 : e.valorFinal ≠ .nan) :
    fromRow (toRow e) = e ∧
    (∀ rows : List Row, ∀ e2 ∈ importEntries rows,
      e2.valorInicial ≠ .nan ∧ e2.valorFinal ≠ .nan) := by
  constructor
  · cases e with
    | mk f vi vf c a m p =>
      simp only [fromRow, toRow] at *
      simp [strOr_empty_default, JSNum.orZero_eq_self vi h1,
        JSNum.orZero_eq_self vf h2]
  · intro rows e2 he2
    simp only [importEntries, List.mem_map] at he2
    obtain ⟨r, -, rfl⟩ := he2
    exact ⟨JSNum.orZero_ne_nan _, JSNum.orZero_ne_nan _⟩

/-- Witness for `export_import_roundtrip` at a concrete entry with a
zero final value and empty optional fields. -/
theorem export_import_roundtrip_witness :
    fromRow (toRow ⟨"F", .fin 10, .fin 0, "C", "", "Maio/2025", "Anual"⟩)
      = ⟨"F", .fin 10, .fin 0, "C", "", "Maio/2025", "Anual"⟩ :=
  (export_import_roundtrip ⟨"F", .fin 10, .fin 0, "C", "", "Maio/2025", "Anual"⟩
    (by decide) (by decide)).1

/-!
## Claim C8 — mutations of the record set
-/

/-- **C8, counterexample.**  `handleFileUpload` ends in
`setData(importedData)`: from the one-entry state `[x]`, importing a
one-row spreadsheet yields `[y]`, a transition that is neither drop-all
(`[]`), nor drop-last (`[]`), nor an append (`[x] ++ [e]`) — the record
set has a fourth mutation, wholesale replacement by the imported rows,
which the claim omits. -/
theorem appStep_replace_counterexample :
    AppStep [⟨"x", .fin 1, .fin 1, "", "", "", ""⟩]
      (importEntries [⟨"y", .fin 2, .fin 2, "", "", "", ""⟩]) ∧
    importEntries [⟨"y", .fin 2, .fin 2, "", "", "", ""⟩] ≠ [] ∧
    importEntries [⟨"y", .fin 2, .fin 2, "", "", "", ""⟩]
      ≠ List.dropLast [⟨"x", .fin 1, .fin 1, "", "", "", ""⟩] ∧
    (∀ e : Entry, importEntries [⟨"y", .fin 2, .fin 2, "", "", "", ""⟩]
      ≠ [⟨"x", .fin 1, .fin 1, "", "", "", ""⟩] ++ [e]) := by
  refine ⟨AppStep.importFile _ _, by simp [importEntries], by simp [importEntries], ?_⟩
  intro e hEq
  exact absurd (congrArg List.length hEq) (by simp [importEntries])

/-- **C8, amended.**  Every record-set transition the program performs
is one of *four* operations: drop-all, drop-the-last-element,
append-one, or replacement by the rows of an imported spreadsheet.
(The first three are as claimed; the import replacement is the one the
claim omits.  No transition edits an existing entry in place: each
either truncates, appends, or replaces wholesale.) -/
theorem appStep_classification (s s2 : List Entry) (h : AppStep s s2) :
    s2 = [] ∨ s2 = s.dropLast ∨ (∃ e, s2 = s ++ [e]) ∨
      (∃ rows, s2 = importEntries rows) := by
  cases h with
  | clearAll d => exact Or.inl rfl
  | clearLast d => exact Or.inr (Or.inl rfl)
  | addOne f d hc => exact Or.inr (Or.inr (Or.inl ⟨mkEntry f, rfl⟩))
  | importFile d rows => exact Or.inr (Or.inr (Or.inr ⟨rows, rfl⟩))

/-- Witness for `appStep_classification` at the drop-all transition
from the empty state. -/
theorem appStep_classification_witness :
    ([] : List Entry) = [] ∨ ([] : List Entry) = List.dropLast [] ∨
      (∃ e, ([] : List Entry) = [] ++ [e]) ∨
      (∃ rows, ([] : List Entry) = importEntries rows) :=
  appStep_classification [] [] (AppStep.clearAll [])

/-!
## Claim C6 — per-line overflow handling and pagination
-/

/-- The cursor automaton of one line placement. -/
def cursorStep (c : ℕ × ℚ) : ℕ × ℚ :=
  if c.2 > 280 then (c.1 + 1, 27) else (c.1, c.2 + 7)

theorem placeLine_cursor (st : PdfState) (l : String) :
    ((placeLine st l).page, (placeLine st l).y) = cursorStep (st.page, st.y) := by
  by_cases h : st.y > 280 <;> simp [placeLine, cursorStep, h] <;> norm_num

theorem placeLines_cursor (ls : List String) (st : PdfState) :
    ((placeLines st ls).page, (placeLines st ls).y)
      = cursorStep^[ls.length] (st.page, st.y) := by
  induction ls generalizing st with
  | nil => rfl
  | cons l ls ih =>
    simp only [placeLines, List.foldl_cons, List.length_cons]
    rw [Function.iterate_succ_apply, ← placeLine_cursor st l]
    exact ih (placeLine st l)

theorem iterate_cursorStep_page_le (n : ℕ) (c : ℕ × ℚ) :
    c.1 ≤ (cursorStep^[n] c).1 := by
  induction n generalizing c with
  | zero => simp
  | succ n ih =>
    rw [Function.iterate_succ_apply]
    refine le_trans ?_ (ih (cursorStep c))
    unfold cursorStep
    split <;> simp

theorem cursorStep_run (p : ℕ) (k : ℕ) (hk : k ≤ 38) :
    cursorStep^[k] (p, (20 : ℚ)) = (p, 20 + 7 * (k : ℚ)) := by
  induction k with
  | zero => norm_num
  | succ k ih =>
    have hk' : k ≤ 38 := le_trans (Nat.le_succ k) hk
    rw [Function.iterate_succ_apply', ih hk']
    have hy : ¬((20 : ℚ) + 7 * (k : ℚ) > 280) := by
      have hk37 : (k : ℚ) ≤ 37 := by
        have : k ≤ 37 := by omega
        exact_mod_cast this
      nlinarith
    simp only [cursorStep, hy, if_false, Prod.mk.injEq, true_and]
    push_cast
    ring

theorem cursorStep_39 (p : ℕ) : cursorStep^[39] (p, (20 : ℚ)) = (p + 1, 27) := by
  have h38 : cursorStep^[38] (p, (20 : ℚ)) = (p, 286) := by
    rw [cursorStep_run p 38 (by omega)]
    norm_num
  rw [show (39 : ℕ) = 38 + 1 from rfl, Function.iterate_succ_apply', h38]
  norm_num [cursorStep]

theorem placeLines_overflow (st : PdfState) (ls : List String)
    (hy : st.y = 20) (hn : 39 ≤ ls.length) :
    st.page + 1 ≤ (placeLines st ls).page := by
  have hc := placeLines_cursor ls st
  have hpage : (placeLines st ls).page = (cursorStep^[ls.length] (st.page, st.y)).1 :=
    congrArg Prod.fst hc
  obtain ⟨m, hm⟩ : ∃ m, ls.length = m + 39 := ⟨ls.length - 39, by omega⟩
  rw [hpage, hy, hm, Function.iterate_add_apply, cursorStep_39]
  exact iterate_cursorStep_page_le m (st.page + 1, 27)

/-- **C6, confirmed.**  Whenever the cursor exceeds the bottom margin
(`y > 280`), a new page is started and the cursor resets to the top
margin (20) *before* the line is placed; otherwise the line is placed
at the current cursor on the current page.  The check is per wrapped
line, each line is placed exactly once at a single (page, y) position —
never split across pages — and placing at least 39 lines from the top
of a page forces at least one further page. -/
theorem narrative_pagination (st : PdfState) (line : String) (ls : List String) :
    (st.y > 280 →
      (placeLine st line).page = st.page + 1 ∧
      (placeLine st line).texts = st.texts ++ [(st.page + 1, 20)]) ∧
    (¬(st.y > 280) →
      (placeLine st line).page = st.page ∧
      (placeLine st line).texts = st.texts ++ [(st.page, st.y)]) ∧
    (placeLine st line).texts.length = st.texts.length + 1 ∧
    (st.y = 20 → 39 ≤ ls.length → st.page + 1 ≤ (placeLines st ls).page) := by
  refine ⟨?_, ?_, ?_, placeLines_overflow st ls⟩
  · intro h; simp [placeLine, h]
  · intro h; simp [placeLine, h]
  · by_cases h : st.y > 280 <;> simp [placeLine, h]

/-- Witness for `narrative_pagination`: an overflowing cursor (300)
breaks to page 2 and places at the top margin; 39 lines from the top of
page 1 reach page 2. -/
theorem narrative_pagination_witness :
    ((placeLine ⟨1, 300, [], []⟩ "x").page = 2 ∧
     (placeLine ⟨1, 300, [], []⟩ "x").texts = [(2, 20)]) ∧
    2 ≤ (placeLines ⟨1, 20, [], []⟩ (List.replicate 39 "x")).page := by
  constructor
  · have h := (narrative_pagination ⟨1, 300, [], []⟩ "x" []).1 (by norm_num)
    simpa using h
  · have h := (narrative_pagination ⟨1, 20, [], []⟩ "x"
      (List.replicate 39 "x")).2.2.2 rfl (by simp)
    simpa using h

/-!
## Claim C9 — fail-soft document export
-/

/-- Agreement of two layout states on everything the text flow depends
on (page, cursor, placed text lines): the `images` component is
irrelevant to text placement. -/
def coreEq (st st2 : PdfState) : Prop :=
  st.page = st2.page ∧ st.y = st2.y ∧ st.texts = st2.texts

theorem addImage_page_texts (st : PdfState) (img : Option Img) :
    (addImage st img).page = st.page ∧ (addImage st img).texts = st.texts := by
  cases img <;> simp [addImage]

theorem afterCharts_page_texts (pie bar conta : Option Img) :
    (afterCharts pie bar conta).page = 1 ∧
    (afterCharts pie bar conta).texts = [(1, 10)] := by
  unfold afterCharts
  have h1 := addImage_page_texts ⟨1, 10 + 10, [(1, 10)], []⟩ pie
  have h2 := addImage_page_texts (addImage ⟨1, 10 + 10, [(1, 10)], []⟩ pie) bar
  have h3 := addImage_page_texts
    (addImage (addImage ⟨1, 10 + 10, [(1, 10)], []⟩ pie) bar) conta
  exact ⟨by rw [h3.1, h2.1, h1.1], by rw [h3.2, h2.2, h1.2]⟩

theorem coreEq_placeLine {st st2 : PdfState} (l : String) (h : coreEq st st2) :
    coreEq (placeLine st l) (placeLine st2 l) := by
  obtain ⟨h1, h2, h3⟩ := h
  by_cases hc : st.y > 280
  · have hc2 : st2.y > 280 := h2 ▸ hc
    simp [placeLine, hc, hc2, coreEq, h1, h2, h3]
  · have hc2 : ¬st2.y > 280 := h2 ▸ hc
    simp [placeLine, hc, hc2, coreEq, h1, h2, h3]

theorem coreEq_placeLines {st st2 : PdfState} (ls : List String)
    (h : coreEq st st2) : coreEq (placeLines st ls) (placeLines st2 ls) := by
  induction ls generalizing st st2 with
  | nil => exact h
  | cons l ls ih => exact ih (coreEq_placeLine l h)

theorem coreEq_placeParagraph (ext : Collab) {st st2 : PdfState}
    (ls : List String) (h : coreEq st st2) :
    coreEq (placeParagraph ext st ls) (placeParagraph ext st2 ls) := by
  induction ls generalizing st st2 with
  | nil => exact h
  | cons l ls ih => exact ih (coreEq_placeLines (ext.split l) h)

theorem narrativeFold_cons (ext : Collab) (e : Entry) (es : List Entry)
    (st : PdfState) :
    narrativeFold ext (e :: es) st
      = narrativeFold ext es
          { placeParagraph ext st (entryTexto ext e) with
            y := (placeParagraph ext st (entryTexto ext e)).y + 5 } := rfl

theorem coreEq_narrativeFold (ext : Collab) {st st2 : PdfState}
    (data : List Entry) (h : coreEq st st2) :
    coreEq (narrativeFold ext data st) (narrativeFold ext data st2) := by
  induction data generalizing st st2 with
  | nil => exact h
  | cons e es ih =>
    rw [narrativeFold_cons, narrativeFold_cons]
    have h2 := coreEq_placeParagraph ext (entryTexto ext e) h
    exact ih ⟨h2.1, by rw [h2.2.1], h2.2.2⟩

theorem coreEq_textPhase (ext : Collab) {st st2 : PdfState}
    (data : List Entry) (h : coreEq st st2) :
    coreEq (textPhase ext data st) (textPhase ext data st2) := by
  unfold textPhase
  have h5 := coreEq_narrativeFold ext data h
  exact coreEq_placeParagraph ext (consolidadoTexto ext data)
    ⟨h5.1, by rw [h5.2.1], h5.2.2⟩

theorem placeLine_page_le (st : PdfState) (l : String) :
    st.page ≤ (placeLine st l).page := by
  by_cases h : st.y > 280 <;> simp [placeLine, h]

theorem placeLines_page_le (st : PdfState) (ls : List String) :
    st.page ≤ (placeLines st ls).page := by
  induction ls generalizing st with
  | nil => exact le_refl _
  | cons l ls ih =>
    exact le_trans (placeLine_page_le st l) (ih (placeLine st l))

theorem placeParagraph_page_le (ext : Collab) (st : PdfState) (ls : List String) :
    st.page ≤ (placeParagraph ext st ls).page := by
  induction ls generalizing st with
  | nil => exact le_refl _
  | cons l ls ih =>
    exact le_trans (placeLines_page_le st (ext.split l)) (ih _)

theorem narrativeFold_page_le (ext : Collab) (data : List Entry) (st : PdfState) :
    st.page ≤ (narrativeFold ext data st).page := by
  induction data generalizing st with
  | nil => exact le_refl _
  | cons e es ih =>
    rw [narrativeFold_cons]
    refine le_trans (placeParagraph_page_le ext st (entryTexto ext e)) ?_
    have h2 := ih { placeParagraph ext st (entryTexto ext e) with
      y := (placeParagraph ext st (entryTexto ext e)).y + 5 }
    simpa using h2

theorem textPhase_page_le (ext : Collab) (data : List Entry) (st : PdfState) :
    st.page ≤ (textPhase ext data st).page := by
  unfold textPhase
  refine le_trans (narrativeFold_page_le ext data st) ?_
  have h2 := placeParagraph_page_le ext
    { narrativeFold ext data st with y := (narrativeFold ext data st).y + 5 }
    (consolidadoTexto ext data)
  simpa using h2

theorem placeLine_texts_bound {st : PdfState} (l : String)
    (h : ∀ t ∈ st.texts, t.2 ≤ 280) :
    ∀ t ∈ (placeLine st l).texts, t.2 ≤ 280 := by
  intro t ht
  by_cases hy : st.y > 280
  · simp only [placeLine, hy, ite_true] at ht
    rcases List.mem_append.mp ht with h1 | h1
    · exact h t h1
    · simp only [List.mem_singleton] at h1
      rw [h1]
      norm_num
  · simp only [placeLine, hy, ite_false] at ht
    rcases List.mem_append.mp ht with h1 | h1
    · exact h t h1
    · simp only [List.mem_singleton] at h1
      rw [h1]
      exact le_of_not_lt hy

theorem placeLines_texts_bound {st : PdfState} (ls : List String)
    (h : ∀ t ∈ st.texts, t.2 ≤ 280) :
    ∀ t ∈ (placeLines st ls).texts, t.2 ≤ 280 := by
  induction ls generalizing st with
  | nil => exact h
  | cons l ls ih => exact ih (placeLine_texts_bound l h)

theorem placeParagraph_texts_bound (ext : Collab) {st : PdfState}
    (ls : List String) (h : ∀ t ∈ st.texts, t.2 ≤ 280) :
    ∀ t ∈ (placeParagraph ext st ls).texts, t.2 ≤ 280 := by
  induction ls generalizing st with
  | nil => exact h
  | cons l ls ih => exact ih (placeLines_texts_bound (ext.split l) h)

theorem narrativeFold_texts_bound (ext : Collab) {st : PdfState}
    (data : List Entry) (h : ∀ t ∈ st.texts, t.2 ≤ 280) :
    ∀ t ∈ (narrativeFold ext data st).texts, t.2 ≤ 280 := by
  induction data generalizing st with
  | nil => exact h
  | cons e es ih =>
    rw [narrativeFold_cons]
    refine ih ?_
    intro t ht
    exact placeParagraph_texts_bound ext (entryTexto ext e) h t (by simpa using ht)

theorem textPhase_texts_bound (ext : Collab) {st : PdfState}
    (data : List Entry) (h : ∀ t ∈ st.texts, t.2 ≤ 280) :
    ∀ t ∈ (textPhase ext data st).texts, t.2 ≤ 280 := by
  unfold textPhase
  refine placeParagraph_texts_bound ext (consolidadoTexto ext data) ?_
  intro t ht
  exact narrativeFold_texts_bound ext data h t (by simpa using ht)

/-- **C9, confirmed.**  The export is fail-soft: `addImage` with a
missing image leaves the state untouched (no primitive emitted, the
cursor not advanced); the placed text lines are identical whether or
not any chart image is present (the forced page break before the
narrative isolates later sections from the cover layout); and for every
input — including missing images and the empty record set — the export
is a total function producing a document of at least two pages whose
narrative and consolidated text lines all sit above the bottom
margin. -/
theorem export_fail_soft (ext : Collab) (pie bar conta : Option Img)
    (data : List Entry) (st : PdfState) :
    addImage st none = st ∧
    (exportToPDF ext pie bar conta data).texts
      = (exportToPDF ext none none none data).texts ∧
    2 ≤ (exportToPDF ext pie bar conta data).page ∧
    (∀ t ∈ (exportToPDF ext pie bar conta data).texts, t.2 ≤ 280) := by
  have hca := afterCharts_page_texts pie bar conta
  have hcn := afterCharts_page_texts none none none
  refine ⟨rfl, ?_, ?_, ?_⟩
  · refine (coreEq_textPhase ext data ?_).2.2
    refine ⟨?_, rfl, ?_⟩
    · show (afterCharts pie bar conta).page + 1
        = (afterCharts none none none).page + 1
      rw [hca.1, hcn.1]
    · show (afterCharts pie bar conta).texts
          ++ [((afterCharts pie bar conta).page + 1, 20)]
        = (afterCharts none none none).texts
          ++ [((afterCharts none none none).page + 1, 20)]
      rw [hca.1, hcn.1, hca.2, hcn.2]
  · refine le_trans (le_of_eq ?_) (textPhase_page_le ext data _)
    show 2 = (afterCharts pie bar conta).page + 1
    rw [hca.1]
  · refine textPhase_texts_bound ext data ?_
    show ∀ t ∈ (afterCharts pie bar conta).texts
        ++ [((afterCharts pie bar conta).page + 1, 20)], t.2 ≤ 280
    rw [hca.1, hca.2]
    intro t ht
    rcases List.mem_append.mp ht with h1 | h1 <;>
      · simp only [List.mem_singleton] at h1
        rw [h1]
        norm_num

/-- Witness for `export_fail_soft`: trivial collaborators, no images,
empty record set; the title line `(1, 10)` is within bounds. -/
theorem export_fail_soft_witness :
    addImage ⟨1, 50, [], []⟩ none = ⟨1, 50, [], []⟩ ∧
    2 ≤ (exportToPDF ⟨fun c => [c], fun s => [s], fun _ => "", fun _ => ""⟩
          none none none []).page ∧
    ((1 : ℕ), (10 : ℚ)).2 ≤ 280 := by
  refine ⟨(export_fail_soft
      ⟨fun c => [c], fun s => [s], fun _ => "", fun _ => ""⟩
      none none none [] ⟨1, 50, [], []⟩).1,
    (export_fail_soft
      ⟨fun c => [c], fun s => [s], fun _ => "", fun _ => ""⟩
      none none none [] ⟨1, 50, [], []⟩).2.2.1,
    (export_fail_soft
      ⟨fun c => [c], fun s => [s], fun _ => "", fun _ => ""⟩
      none none none [] ⟨1, 50, [], []⟩).2.2.2 (1, 10) ?_⟩
  norm_num [exportToPDF, textPhase, narrativeFold, placeParagraph,
    placeLines, placeLine, afterCharts, addImage, consolidadoTexto]

/-!
## Claim C7 — the text normalizer
-/

theorem allowedChar_not_mark (c : Char) (h : allowedChar c = true) :
    isMark c = false := by
  simp only [allowedChar, isJsWs, Bool.or_eq_true, Bool.and_eq_true,
    decide_eq_true_eq, beq_iff_eq] at h
  rw [Bool.eq_false_iff]
  intro hm
  simp only [isMark, Bool.and_eq_true, decide_eq_true_eq] at hm
  omega

theorem dropWhile_head_false (p : Char → Bool) :
    ∀ (l : List Char) (b : Char), (l.dropWhile p).head? = some b → p b = false := by
  intro l
  induction l with
  | nil => intro b h; simp [List.dropWhile] at h
  | cons c cs ih =>
    intro b h
    by_cases hc : p c
    · rw [List.dropWhile_cons_of_pos hc] at h
      exact ih b h
    · rw [List.dropWhile_cons_of_neg hc] at h
      simp only [List.head?_cons, Option.some.injEq] at h
      rw [← h]
      exact Bool.eq_false_iff.mpr hc

theorem mem_collapseWs {c : Char} :
    ∀ {l : List Char}, c ∈ collapseWs l → c = ' ' ∨ c ∈ l
  | [], h => by simp [collapseWs] at h
  | [d], h => by
    simp only [collapseWs, List.mem_singleton, normWs] at h
    by_cases hd : isJsWs d
    · rw [hd] at h; simp at h; exact Or.inl h
    · rw [if_neg hd] at h; exact Or.inr (by simp [h])
  | d :: e :: cs, h => by
    rw [collapseWs] at h
    by_cases hde : isJsWs d && isJsWs e
    · rw [if_pos hde] at h
      rcases mem_collapseWs h with h1 | h1
      · exact Or.inl h1
      · exact Or.inr (List.mem_cons_of_mem d h1)
    · rw [if_neg hde] at h
      rcases List.mem_cons.mp h with h1 | h1
      · by_cases hd : isJsWs d
        · rw [h1]; simp [normWs, hd]
        · rw [h1]; simp [normWs, hd]
      · rcases mem_collapseWs h1 with h2 | h2
        · exact Or.inl h2
        · exact Or.inr (List.mem_cons_of_mem d h2)

theorem collapseWs_head_of_not_ws (d : Char) (cs : List Char)
    (h : isJsWs d = false) : (collapseWs (d :: cs)).head? = some d := by
  cases cs with
  | nil => simp [collapseWs, normWs, h]
  | cons e es => simp [collapseWs, normWs, h]

theorem chain_collapseWs :
    ∀ (l : List Char),
      List.Chain' (fun a b => ¬(isJsWs a = true ∧ isJsWs b = true)) (collapseWs l)
  | [] => by simp [collapseWs]
  | [c] => by simp [collapseWs]
  | c :: d :: cs => by
    rw [collapseWs]
    by_cases hcd : isJsWs c && isJsWs d
    · rw [if_pos hcd]
      exact chain_collapseWs (d :: cs)
    · rw [if_neg hcd]
      rw [List.chain'_cons']
      refine ⟨?_, chain_collapseWs (d :: cs)⟩
      intro b hb
      by_cases hc : isJsWs c
      · have hd : isJsWs d = false := by
          cases hd2 : isJsWs d
          · rfl
          · exact absurd (by simp [hc, hd2]) hcd
        rw [collapseWs_head_of_not_ws d cs hd] at hb
        simp only [Option.mem_def, Option.some.injEq] at hb
        rw [← hb]
        intro hcontra
        rw [hd] at hcontra
        exact Bool.noConfusion hcontra.2
      · intro hcontra
        have : normWs c = c := if_neg hc
        rw [this] at hcontra
        exact hc (by simp [hcontra.1])

theorem mem_trimWs {c : Char} {l : List Char} (h : c ∈ trimWs l) : c ∈ l := by
  unfold trimWs at h
  rw [List.mem_reverse] at h
  have h1 := (List.dropWhile_suffix _).sublist.subset h
  rw [List.mem_reverse] at h1
  exact (List.dropWhile_suffix _).sublist.subset h1

theorem chain_trimWs {l : List Char}
    (h : List.Chain' (fun a b => ¬(isJsWs a = true ∧ isJsWs b = true)) l) :
    List.Chain' (fun a b => ¬(isJsWs a = true ∧ isJsWs b = true)) (trimWs l) := by
  have hsym : ∀ (x : List Char),
      List.Chain' (fun a b => ¬(isJsWs a = true ∧ isJsWs b = true)) x →
      List.Chain' (flip (fun a b => ¬(isJsWs a = true ∧ isJsWs b = true))) x :=
    fun x hx => hx.imp (fun a b hab hc => hab ⟨hc.2, hc.1⟩)
  unfold trimWs
  refine List.chain'_reverse.mpr (hsym _ ?_)
  refine List.Chain'.suffix ?_ (List.dropWhile_suffix _)
  refine List.chain'_reverse.mpr (hsym _ ?_)
  exact h.suffix (List.dropWhile_suffix _)

theorem trimWs_head {l : List Char} {c : Char}
    (h : (trimWs l).head? = some c) : isJsWs c = false := by
  unfold trimWs at h
  rw [List.head?_reverse] at h
  obtain ⟨t, ht⟩ :=
    List.dropWhile_suffix (l := (l.dropWhile (fun a => isJsWs a)).reverse)
      (fun a => isJsWs a)
  have hz : (l.dropWhile (fun a => isJsWs a)).reverse.dropWhile
      (fun a => isJsWs a) ≠ [] := by
    intro he
    rw [he] at h
    exact Option.noConfusion h
  have h2 : ((l.dropWhile (fun a => isJsWs a)).reverse).getLast? = some c := by
    rw [← ht, List.getLast?_append_of_ne_nil t hz]
    exact h
  rw [List.getLast?_reverse] at h2
  exact dropWhile_head_false _ _ c h2

theorem trimWs_last {l : List Char} {c : Char}
    (h : (trimWs l).getLast? = some c) : isJsWs c = false := by
  unfold trimWs at h
  rw [List.getLast?_reverse] at h
  exact dropWhile_head_false _ _ c h

/-- **C7, amended.**  `limparTexto` is a total pure function whose
output, for every decomposition table `nfd` and every input string:
contains only characters of the code's allow-list `[a-zA-Z0-9À-ÿ,.!?()\-\s]`
(which, unlike the claim's "letters, digits, punctuation, whitespace",
also admits the two non-letters `×` and `÷` of the range `À-ÿ`);
contains no combining mark (U+0300–U+036F); has no two adjacent
whitespace characters; and has no leading or trailing whitespace.
Disallowed characters are deleted, not replaced: the allow-list stage
is a sublist of the decomposed input. -/
theorem limparTexto_sanitizes (nfd : Char → List Char) (s : String) :
    (∀ c ∈ (limparTexto nfd s).toList, allowedChar c = true) ∧
    (∀ c ∈ (limparTexto nfd s).toList, isMark c = false) ∧
    List.Chain' (fun a b => ¬(isJsWs a = true ∧ isJsWs b = true))
      (limparTexto nfd s).toList ∧
    (∀ c, (limparTexto nfd s).toList.head? = some c → isJsWs c = false) ∧
    (∀ c, (limparTexto nfd s).toList.getLast? = some c → isJsWs c = false) ∧
    List.Sublist
      (((s.toList.flatMap nfd).filter (fun c => !isMark c)).filter allowedChar)
      (s.toList.flatMap nfd) := by
  have hlist : (limparTexto nfd s).toList
      = trimWs (collapseWs
          (((s.toList.flatMap nfd).filter (fun c => !isMark c)).filter
            allowedChar)) := rfl
  have hallowed : ∀ c ∈ (limparTexto nfd s).toList, allowedChar c = true := by
    intro c hc
    rw [hlist] at hc
    rcases mem_collapseWs (mem_trimWs hc) with h1 | h1
    · rw [h1]; decide
    · exact (List.mem_filter.mp h1).2
  refine ⟨hallowed, ?_, ?_, ?_, ?_, ?_⟩
  · intro c hc
    exact allowedChar_not_mark c (hallowed c hc)
  · rw [hlist]
    exact chain_trimWs (chain_collapseWs _)
  · intro c hc
    rw [hlist] at hc
    exact trimWs_head hc
  · intro c hc
    rw [hlist] at hc
    exact trimWs_last hc
  · exact (List.filter_sublist _).trans (List.filter_sublist _)

/-- **C7, counterexample.**  The multiplication sign `×` (U+00D7) lies
inside the kept range `À-ÿ` and survives `limparTexto` unchanged
(Unicode NFD leaves it as is, modelled by the identity decomposition),
yet it is not a letter, digit, listed punctuation mark, or whitespace —
`specAllowedChar`, written from the spec's allow-list description,
rejects it.  The claim's "contains only letters (including extended
Latin), digits, the punctuation set, and whitespace" is therefore
false. -/
theorem limparTexto_times_counterexample :
    limparTexto (fun c => [c]) "×" = "×" ∧ specAllowedChar '×' = false := by
  constructor
  · decide
  · decide

/-- Witness for `limparTexto_sanitizes`: the head of the normalized
`" Olá!  x "` is the non-whitespace character `O`. -/
theorem limparTexto_sanitizes_witness : isJsWs 'O' = false :=
  (limparTexto_sanitizes (fun c => [c])
    (⟨[' ', 'O', 'l', 'á', '!', ' ', ' ', 'x', ' ']⟩ : String)).2.2.2.1 'O'
    (by decide)
